import Mathlib

/-
Verification of the cocotb v1 → v2 migration engine.

The development shallowly embeds the two rewrite passes of the repository —
`CocotbTransformer` / `ChangeCounter` / `migrate_file` / `main` from
`cocotb_migrate.py`, and `ClockTransformer` from
`cocotb2_migrator/transformers/clock_transformer.py` — over a concrete
syntax tree covering the node kinds those passes inspect (names, numbers,
strings, attribute accesses, calls with keyword arguments, await/yield
expressions, raise/return statements, decorated function definitions,
comment lines and modules).

LibCST semantics mirrored here:
  * a transformer visits children before parents; each `leave_X` receives
    the ORIGINAL node (from the pre-transform tree) and the UPDATED node
    (with already-rewritten children) — `ClockTransformer` pattern-matches
    on the original node, `CocotbTransformer` on the updated one;
  * `libcst.matchers.matches(node, matcher)` applied to an absent (`None`)
    sub-node returns `False` without raising (the class-name comparison in
    `_node_matches` fails), so a bare `raise` / bare `yield` falls through;
  * `CSTNode.__eq__` is object identity; at the two
    `new_args != list(original_node.args)` tests in
    `ClockTransformer.leave_Call` this coincides with the structural
    inequality used here, because a renamed keyword always produces a
    structurally different argument and a removal always shortens the list;
  * `Module.code` / exact reprinting is modelled by a printer `renderLines`;
    by the round-trip law (spec §8) the original source text of a parsed
    module is the printed form of its unmodified tree.
-/

namespace Migrator

/-! ## Concrete syntax tree -/

mutual

/-- Expression nodes: the kinds inspected by the transformers
(`Name`, `Integer`, `SimpleString`, `Attribute`, `Call`, `Await`, `Yield`). -/
inductive Expr : Type where
  | name (s : String)
  | num (n : Nat)
  | strLit (s : String)
  | attr (value : Expr) (a : String)
  | call (func : Expr) (args : Args)
  | awaitE (e : Expr)
  | yieldNone
  | yieldSome (e : Expr)

/-- A call argument: optional keyword (`cst.Arg.keyword`, a `Name` or absent)
and a value expression. -/
inductive Arg : Type where
  | mk (keyword : Option String) (value : Expr)

/-- The argument list of a call. -/
inductive Args : Type where
  | nil
  | cons (a : Arg) (rest : Args)

end

deriving instance DecidableEq for Expr
deriving instance DecidableEq for Arg
deriving instance DecidableEq for Args

/-- Small statements (the bodies of `SimpleStatementLine`). -/
inductive Stmt : Type where
  | exprStmt (e : Expr)
  | raiseNone
  | raiseSome (e : Expr)
  | returnNone
  | returnSome (e : Expr)
  | passS
deriving DecidableEq

mutual

/-- A module-level (or function-body) line: a simple statement line, an
`EmptyLine` carrying a comment (as inserted by `ClockTransformer.leave_Module`),
or a function definition with decorators and an async flag. -/
inductive Line : Type where
  | simple (stmts : List Stmt)
  | emptyLine (comment : String)
  | funcDef (decorators : List Expr) (isAsync : Bool) (nm : String) (body : Lines)

/-- A module body (`Module.body`). -/
inductive Lines : Type where
  | nil
  | cons (l : Line) (rest : Lines)

end

deriving instance DecidableEq for Line
deriving instance DecidableEq for Lines

/-! ## Shared helpers over argument lists -/

/-- Does the argument list carry a keyword argument named `k`?
(`arg.keyword and arg.keyword.value == k`). -/
def hasKwArg (k : String) : Args → Bool
  | .nil => false
  | .cons (.mk kw _) rest => (kw = some k : Bool) || hasKwArg k rest

/-- The value expressions of an argument list, in order. -/
def argsValues : Args → List Expr
  | .nil => []
  | .cons (.mk _ v) rest => v :: argsValues rest

/-- Length of an argument list. -/
def argsLen : Args → Nat
  | .nil => 0
  | .cons _ rest => argsLen rest + 1

/-! ## ClockTransformer (clock_transformer.py) -/

/-- Accumulator state of one `ClockTransformer` traversal: the pass-local
`modified` flag plus the two file-scoped diagnostic flags set in
`__init__`. -/
structure CTState : Type where
  modified : Bool
  frequency_found : Bool
  cycles_found : Bool
deriving DecidableEq

/-- Fresh state built by `ClockTransformer.__init__`. -/
def CTState.init : CTState := ⟨false, false, false⟩

/-- Modelled from the spec: `BaseCocotbTransformer.mark_modified` — the base
class `cocotb2_migrator/transformers/base.py` is not among the sources; per
spec §4.4 each pass reports a local "modified" flag, set when one of its
rewrites fires. -/
def CTState.mark_modified (s : CTState) : CTState := { s with modified := true }

/-- Rule 1 of `ClockTransformer.leave_Call`: when the original node is
`cocotb.start_soon(<exactly one argument whose value is a call on an
attribute named "start">)`, the matched inner call (from the ORIGINAL
node) is the replacement. -/
def ruleStartSoon : Expr → Option Expr
  | .call (.attr (.name "cocotb") "start_soon") (.cons (.mk _ a1) .nil) =>
    match a1 with
    | .call (.attr recv "start") iargs => some (.call (.attr recv "start") iargs)
    | _ => none
  | _ => none

/-- Rule 2 loop of `leave_Call`: `units=` keywords are renamed to `unit=`,
the value expression untouched, every other argument appended as-is. -/
def renameUnitsArgs : Args → Args
  | .nil => .nil
  | .cons (.mk kw v) rest =>
    if kw = some "units" then .cons (.mk (some "unit") v) (renameUnitsArgs rest)
    else .cons (.mk kw v) (renameUnitsArgs rest)

/-- Rule 3 loop of `leave_Call`: arguments whose keyword is `cycles` are
skipped (`continue`), every other argument appended as-is. -/
def removeCyclesArgs : Args → Args
  | .nil => .nil
  | .cons (.mk kw v) rest =>
    if kw = some "cycles" then removeCyclesArgs rest
    else .cons (.mk kw v) (removeCyclesArgs rest)

/-- Models `updated_node.with_changes(args=new_args)`. -/
def withArgs (upd : Expr) (newArgs : Args) : Expr :=
  match upd with
  | .call f _ => .call f newArgs
  | e => e

/-- Rule 3 of `leave_Call` followed by the trailing `return updated_node`:
on a call whose original func is an attribute named `start`, drop `cycles=`
keyword arguments (marking the pass modified per removal); when the argument
list actually shrank, set `cycles_found` and return the call with the new
arguments; otherwise fall through to returning the updated node. -/
def ctRule3 (orig upd : Expr) (s : CTState) : Expr × CTState :=
  match orig with
  | .call (.attr _ "start") oargs =>
    let new_args := removeCyclesArgs oargs
    let s2 := if hasKwArg "cycles" oargs then s.mark_modified else s
    if new_args ≠ oargs then (withArgs upd new_args, { s2 with cycles_found := true })
    else (upd, s2)
  | _ => (upd, s)

/-- Embeds `ClockTransformer.leave_Call`: the three sequential rewrite rules.
Rules match on the ORIGINAL node; rules 2 and 3 place their rebuilt
argument lists into the UPDATED node (`updated_node.with_changes`), while
rule 1 returns the ORIGINAL inner call verbatim. -/
def ctLeaveCall (orig upd : Expr) (s : CTState) : Expr × CTState :=
  match ruleStartSoon orig with
  | some inner => (inner, s.mark_modified)
  | none =>
    match orig with
    | .call (.name "Clock") oargs =>
      let new_args := renameUnitsArgs oargs
      let s2 := if hasKwArg "units" oargs then s.mark_modified else s
      if new_args ≠ oargs then (withArgs upd new_args, s2)
      else ctRule3 orig upd s2
    | _ => ctRule3 orig upd s

/-- Embeds `ClockTransformer.leave_Attribute`: any attribute access whose attribute
name is `frequency` — whatever the receiver — sets `frequency_found`, marks
the pass modified, and returns the (updated) node itself unchanged. -/
def ctLeaveAttr (orig upd : Expr) (s : CTState) : Expr × CTState :=
  match orig with
  | .attr _ a =>
    if a = "frequency" then (upd, { s.mark_modified with frequency_found := true })
    else (upd, s)
  | _ => (upd, s)

/-- Warning comment inserted for a removed `Clock.frequency` access. -/
def freqWarning : String :=
  "# WARNING: Clock.frequency was removed in cocotb 2.0 (manual fix required)"

/-- Warning comment inserted for a removed `Clock.start(cycles=...)` keyword. -/
def cyclesWarning : String :=
  "# WARNING: Clock.start(cycles=...) was removed in cocotb 2.0 (manual fix required)"

/-- Build the `EmptyLine` comments for a list of warnings and prepend them. -/
def prependComments : List String → Lines → Lines
  | [], ls => ls
  | w :: ws, ls => .cons (.emptyLine w) (prependComments ws ls)

/-- Embeds `ClockTransformer.leave_Module`: one advisory comment per diagnostic
kind whose flag is set, prepended to the module body. -/
def ctLeaveModule (upd : Lines) (s : CTState) : Lines :=
  let warnings : List String :=
    (if s.frequency_found then [freqWarning] else []) ++
    (if s.cycles_found then [cyclesWarning] else [])
  if warnings ≠ [] then prependComments warnings upd else upd

mutual

/-- One `ClockTransformer` traversal of an expression: children first, then
the matching `leave_*` hook with the original node and the child-updated
node. -/
def ctExpr : Expr → CTState → Expr × CTState
  | .name v, s => (.name v, s)
  | .num n, s => (.num n, s)
  | .strLit v, s => (.strLit v, s)
  | .attr v a, s =>
    let r := ctExpr v s
    ctLeaveAttr (.attr v a) (.attr r.1 a) r.2
  | .call f args, s =>
    let rf := ctExpr f s
    let ra := ctArgs args rf.2
    ctLeaveCall (.call f args) (.call rf.1 ra.1) ra.2
  | .awaitE e, s =>
    let r := ctExpr e s
    (.awaitE r.1, r.2)
  | .yieldNone, s => (.yieldNone, s)
  | .yieldSome e, s =>
    let r := ctExpr e s
    (.yieldSome r.1, r.2)

/-- Traversal of an argument list. -/
def ctArgs : Args → CTState → Args × CTState
  | .nil, s => (.nil, s)
  | .cons (.mk kw v) rest, s =>
    let rv := ctExpr v s
    let rr := ctArgs rest rv.2
    (.cons (.mk kw rv.1) rr.1, rr.2)

end

/-- Traversal of a small statement (`ClockTransformer` defines no hook for
these kinds; children are still visited). -/
def ctStmt : Stmt → CTState → Stmt × CTState
  | .exprStmt e, s => let r := ctExpr e s; (.exprStmt r.1, r.2)
  | .raiseNone, s => (.raiseNone, s)
  | .raiseSome e, s => let r := ctExpr e s; (.raiseSome r.1, r.2)
  | .returnNone, s => (.returnNone, s)
  | .returnSome e, s => let r := ctExpr e s; (.returnSome r.1, r.2)
  | .passS, s => (.passS, s)

/-- Traversal of the statements of one simple line. -/
def ctStmts : List Stmt → CTState → List Stmt × CTState
  | [], s => ([], s)
  | st :: rest, s =>
    let r := ctStmt st s
    let rr := ctStmts rest r.2
    (r.1 :: rr.1, rr.2)

/-- Traversal of a decorator list. -/
def ctDecs : List Expr → CTState → List Expr × CTState
  | [], s => ([], s)
  | d :: rest, s =>
    let r := ctExpr d s
    let rr := ctDecs rest r.2
    (r.1 :: rr.1, rr.2)

mutual

/-- Traversal of one line. -/
def ctLine : Line → CTState → Line × CTState
  | .simple ss, s => let r := ctStmts ss s; (.simple r.1, r.2)
  | .emptyLine c, s => (.emptyLine c, s)
  | .funcDef decs isAsync nm body, s =>
    let rd := ctDecs decs s
    let rb := ctLines body rd.2
    (.funcDef rd.1 isAsync nm rb.1, rb.2)

/-- Traversal of a sequence of lines. -/
def ctLines : Lines → CTState → Lines × CTState
  | .nil, s => (.nil, s)
  | .cons l rest, s =>
    let r := ctLine l s
    let rr := ctLines rest r.2
    (.cons r.1 rr.1, rr.2)

end

/-- One full `ClockTransformer` run on a module: a fresh transformer
(`__init__` state), one traversal, then `leave_Module`.  Returns the
rewritten module and the final transformer state. -/
def ctRun (m : Lines) : Lines × CTState :=
  let r := ctLines m CTState.init
  (ctLeaveModule r.1 r.2, r.2)

/-! ## CocotbTransformer (cocotb_migrate.py) -/

/-- Models `m.matches(e, m.Call())`. -/
def isCallB : Expr → Bool
  | .call _ _ => true
  | _ => false

/-- Models `m.matches(f, m.Name("fork"))`. -/
def isForkName : Expr → Bool
  | .name "fork" => true
  | _ => false

/-- Models `m.matches(e, m.Call(func=m.Name("ReturnValue")))`. -/
def matchesReturnValueCall : Expr → Bool
  | .call (.name "ReturnValue") _ => true
  | _ => false

/-- The decorator matcher
`m.Decorator(decorator=m.Attribute(value=m.Name("cocotb"), attr=m.Name("coroutine")))`. -/
def isCoroutineDecorator : Expr → Bool
  | .attr (.name "cocotb") "coroutine" => true
  | _ => false

/-- Models `call.args[0].value if call.args else cst.Name("None")`. -/
def firstArgValueOrNone : Args → Expr
  | .nil => .name "None"
  | .cons (.mk _ v) _ => v

/-- Embeds `CocotbTransformer.leave_Yield`: `yield <call>` becomes `await <call>`;
every other yield — including a bare `yield`, whose absent value makes the
matcher return false — passes through unchanged. -/
def cmtLeaveYield : Expr → Expr
  | .yieldSome v => if isCallB v then .awaitE v else .yieldSome v
  | e => e

/-- Embeds `CocotbTransformer.leave_Raise`: `raise ReturnValue(...)` becomes a
return of the first argument's value, or of the name `None` when the call
has no arguments.  (The source wraps the `Return` in a fresh
`SimpleStatementLine`; at small-statement granularity the `Return` itself
is the replacement.)  A bare `raise` has no exception expression, the
matcher returns false, and the node passes through. -/
def cmtLeaveRaise : Stmt → Stmt
  | .raiseSome (.call (.name "ReturnValue") args) =>
    .returnSome (firstArgValueOrNone args)
  | st => st

/-- Embeds `CocotbTransformer.leave_Call`: `fork(...)` gets its func replaced by
`cocotb.start_soon`, arguments unchanged. -/
def cmtLeaveCall : Expr → Expr
  | .call (.name "fork") args =>
    .call (.attr (.name "cocotb") "start_soon") args
  | e => e

/-- Embeds `CocotbTransformer.leave_FunctionDef`: strip every `@cocotb.coroutine`
decorator; when one was removed, force the function async and install the
filtered decorator list. -/
def cmtLeaveFunctionDef : Line → Line
  | .funcDef decs isAsync nm body =>
    let removed := decs.any isCoroutineDecorator
    let newDecs := decs.filter (fun d => !isCoroutineDecorator d)
    if removed then .funcDef newDecs true nm body
    else .funcDef decs isAsync nm body
  | l => l

mutual

/-- One `CocotbTransformer` traversal of an expression (this transformer
only reads the updated node, so no original/updated pair is needed). -/
def cmtExpr : Expr → Expr
  | .name s => .name s
  | .num n => .num n
  | .strLit s => .strLit s
  | .attr v a => .attr (cmtExpr v) a
  | .call f args => cmtLeaveCall (.call (cmtExpr f) (cmtArgs args))
  | .awaitE e => .awaitE (cmtExpr e)
  | .yieldNone => cmtLeaveYield .yieldNone
  | .yieldSome e => cmtLeaveYield (.yieldSome (cmtExpr e))

/-- Traversal of an argument list. -/
def cmtArgs : Args → Args
  | .nil => .nil
  | .cons (.mk kw v) rest => .cons (.mk kw (cmtExpr v)) (cmtArgs rest)

end

/-- Traversal of a small statement. -/
def cmtStmt : Stmt → Stmt
  | .exprStmt e => .exprStmt (cmtExpr e)
  | .raiseNone => cmtLeaveRaise .raiseNone
  | .raiseSome e => cmtLeaveRaise (.raiseSome (cmtExpr e))
  | .returnNone => .returnNone
  | .returnSome e => .returnSome (cmtExpr e)
  | .passS => .passS

mutual

/-- Traversal of one line. -/
def cmtLine : Line → Line
  | .simple ss => .simple (ss.map cmtStmt)
  | .emptyLine c => .emptyLine c
  | .funcDef decs isAsync nm body =>
    cmtLeaveFunctionDef (.funcDef (decs.map cmtExpr) isAsync nm (cmtLines body))

/-- Traversal of a module body: `original_tree.visit(CocotbTransformer())`. -/
def cmtLines : Lines → Lines
  | .nil => .nil
  | .cons l rest => .cons (cmtLine l) (cmtLines rest)

end

/-! ## ChangeCounter (cocotb_migrate.py) -/

mutual

/-- Offense strings collected by `ChangeCounter` inside an expression, in
visitation order (a node's own offense before its children's). -/
def offExpr : Expr → List String
  | .name _ => []
  | .num _ => []
  | .strLit _ => []
  | .attr v _ => offExpr v
  | .call f args =>
    (if isForkName f then ["fork() call"] else []) ++ offExpr f ++ offArgs args
  | .awaitE e => offExpr e
  | .yieldNone => []
  | .yieldSome e =>
    (if isCallB e then ["yield <CocotbTrigger>"] else []) ++ offExpr e

/-- Offenses inside an argument list. -/
def offArgs : Args → List String
  | .nil => []
  | .cons (.mk _ v) rest => offExpr v ++ offArgs rest

end

/-- Offenses inside a small statement. -/
def offStmt : Stmt → List String
  | .exprStmt e => offExpr e
  | .raiseNone => []
  | .raiseSome e =>
    (if matchesReturnValueCall e then ["raise ReturnValue()"] else []) ++ offExpr e
  | .returnNone => []
  | .returnSome e => offExpr e
  | .passS => []

/-- Offenses inside the statements of one simple line. -/
def offStmts : List Stmt → List String
  | [] => []
  | st :: rest => offStmt st ++ offStmts rest

/-- Offenses contributed by a decorator list (`visit_Decorator` plus the
decorator expressions' own children). -/
def offDecs : List Expr → List String
  | [] => []
  | d :: rest =>
    (if isCoroutineDecorator d then ["@cocotb.coroutine decorator"] else []) ++
      offExpr d ++ offDecs rest

mutual

/-- Offenses inside one line. -/
def offLine : Line → List String
  | .simple ss => offStmts ss
  | .emptyLine _ => []
  | .funcDef decs _ _ body => offDecs decs ++ offLines body

/-- Offenses of a whole module body: `counter.offenses` after
`wrapper.visit(counter)`. -/
def offLines : Lines → List String
  | .nil => []
  | .cons l rest => offLine l ++ offLines rest

end

/-! ## Printing (Module.code) -/

mutual

/-- Printer for expressions. -/
def renderExpr : Expr → String
  | .name s => s
  | .num n => toString n
  | .strLit s => "\"" ++ s ++ "\""
  | .attr v a => renderExpr v ++ "." ++ a
  | .call f args => renderExpr f ++ "(" ++ renderArgs args ++ ")"
  | .awaitE e => "await " ++ renderExpr e
  | .yieldNone => "yield"
  | .yieldSome e => "yield " ++ renderExpr e

/-- Printer for argument lists (comma-separated, `kw=value` for keywords). -/
def renderArgs : Args → String
  | .nil => ""
  | .cons (.mk kw v) rest =>
    (match kw with
     | some k => k ++ "="
     | none => "") ++ renderExpr v ++
    (match rest with
     | .nil => ""
     | .cons a r => ", " ++ renderArgs (.cons a r))

end

/-- Printer for small statements. -/
def renderStmt : Stmt → String
  | .exprStmt e => renderExpr e
  | .raiseNone => "raise"
  | .raiseSome e => "raise " ++ renderExpr e
  | .returnNone => "return"
  | .returnSome e => "return " ++ renderExpr e
  | .passS => "pass"

/-- Printer for the statements of one simple line. -/
def renderStmts : List Stmt → String
  | [] => ""
  | [st] => renderStmt st
  | st :: rest => renderStmt st ++ "; " ++ renderStmts rest

/-- Printer for a decorator list. -/
def renderDecs : List Expr → String
  | [] => ""
  | d :: rest => "@" ++ renderExpr d ++ "\n" ++ renderDecs rest

mutual

/-- Printer for one line. -/
def renderLine : Line → String
  | .simple ss => renderStmts ss ++ "\n"
  | .emptyLine c => c ++ "\n"
  | .funcDef decs isAsync nm body =>
    renderDecs decs ++ (if isAsync then "async " else "") ++ "def " ++ nm ++
      "():\n" ++ renderLines body

/-- Printer for a module body: `Module.code`. -/
def renderLines : Lines → String
  | .nil => ""
  | .cons l rest => renderLine l ++ renderLines rest

end

/-! ## migrate_file and main (cocotb_migrate.py) -/

/-- Outcome of `cst.parse_module(source)`: a tree, or the caught exception's
message. -/
inductive ParseResult : Type where
  | ok (m : Lines)
  | err (msg : String)
deriving DecidableEq

/-- What one `migrate_file` call did: the returned change verdict, the text
written out (if any), and the parse failure it printed (if any). -/
structure FileOutcome : Type where
  changed : Bool
  written : Option String
  parseErrorReported : Option String
deriving DecidableEq

/-- Embeds `migrate_file`, abstracted over I/O: the file's parse outcome stands for
`cst.parse_module(path.read_text())`, and by the round-trip law the original
source text of a parsed module is its printed form.  (The `inplace` flag only
selects the destination path and is dropped.)  A parse failure is caught,
printed, and answered with `False`; otherwise the `ChangeCounter` pre-scan
may return early in check-only mode, else the full rewrite is printed and
compared with the source. -/
def migrate_file (pr : ParseResult) (apply : Bool) : FileOutcome :=
  match pr with
  | .err msg => { changed := false, written := none, parseErrorReported := some msg }
  | .ok m =>
    let needs_change := !(offLines m).isEmpty
    if !needs_change && !apply then
      { changed := false, written := none, parseErrorReported := none }
    else
      let newCode := renderLines (cmtLines m)
      let changed : Bool := newCode != renderLines m
      { changed := changed
        written := if apply && changed then some newCode else none
        parseErrorReported := none }

/-- The batch loop of `main`: process every target in order, counting
changed and unchanged files. -/
def mainCounts : List ParseResult → Bool → Nat × Nat
  | [], _ => (0, 0)
  | pr :: rest, apply =>
    let o := migrate_file pr apply
    let r := mainCounts rest apply
    if o.changed then (r.1 + 1, r.2) else (r.1, r.2 + 1)

/-! ## Matching predicates used in the analysis -/

/-- Does the `leave_Raise` matcher accept the statement? -/
def raiseRewriteApplies : Stmt → Bool
  | .raiseSome e => matchesReturnValueCall e
  | _ => false

/-- Does the argument list of a `cocotb.start_soon` call have the shape rule 1
matches: exactly one argument whose value is a call on an attribute named
`start`? -/
def startSoonArgMatch : Args → Bool
  | .cons (.mk _ (.call (.attr _ "start") _)) .nil => true
  | _ => false

/-- Does this call node (given func and args) match rule 3 of
`ClockTransformer.leave_Call`: func is an attribute named `start` and a
`cycles=` keyword argument is present? -/
def isStartCyclesCall (f : Expr) (args : Args) : Bool :=
  match f with
  | .attr _ "start" => hasKwArg "cycles" args
  | _ => false

mutual

/-- Does the expression contain an attribute access named `frequency`? -/
def hasFreqE : Expr → Bool
  | .name _ => false
  | .num _ => false
  | .strLit _ => false
  | .attr v a => (a = "frequency" : Bool) || hasFreqE v
  | .call f args => hasFreqE f || hasFreqA args
  | .awaitE e => hasFreqE e
  | .yieldNone => false
  | .yieldSome e => hasFreqE e

/-- Extends `hasFreqE` over an argument list. -/
def hasFreqA : Args → Bool
  | .nil => false
  | .cons (.mk _ v) rest => hasFreqE v || hasFreqA rest

end

/-- Extends `hasFreqE` over a small statement. -/
def hasFreqS : Stmt → Bool
  | .exprStmt e => hasFreqE e
  | .raiseNone => false
  | .raiseSome e => hasFreqE e
  | .returnNone => false
  | .returnSome e => hasFreqE e
  | .passS => false

/-- Extends `hasFreqS` over a statement list. -/
def hasFreqSs : List Stmt → Bool
  | [] => false
  | st :: rest => hasFreqS st || hasFreqSs rest

/-- Extends `hasFreqE` over a decorator list. -/
def hasFreqD : List Expr → Bool
  | [] => false
  | d :: rest => hasFreqE d || hasFreqD rest

mutual

/-- Extends `hasFreqE` over one line. -/
def hasFreqL : Line → Bool
  | .simple ss => hasFreqSs ss
  | .emptyLine _ => false
  | .funcDef decs _ _ body => hasFreqD decs || hasFreqLs body

/-- Does the module contain an attribute access named `frequency`? -/
def hasFreqLs : Lines → Bool
  | .nil => false
  | .cons l rest => hasFreqL l || hasFreqLs rest

end

mutual

/-- Does the expression contain a call matching rule 3 (a `start` attribute
call with a `cycles=` keyword)? -/
def hasCycE : Expr → Bool
  | .name _ => false
  | .num _ => false
  | .strLit _ => false
  | .attr v _ => hasCycE v
  | .call f args => isStartCyclesCall f args || hasCycE f || hasCycA args
  | .awaitE e => hasCycE e
  | .yieldNone => false
  | .yieldSome e => hasCycE e

/-- Extends `hasCycE` over an argument list. -/
def hasCycA : Args → Bool
  | .nil => false
  | .cons (.mk _ v) rest => hasCycE v || hasCycA rest

end

/-- Extends `hasCycE` over a small statement. -/
def hasCycS : Stmt → Bool
  | .exprStmt e => hasCycE e
  | .raiseNone => false
  | .raiseSome e => hasCycE e
  | .returnNone => false
  | .returnSome e => hasCycE e
  | .passS => false

/-- Extends `hasCycS` over a statement list. -/
def hasCycSs : List Stmt → Bool
  | [] => false
  | st :: rest => hasCycS st || hasCycSs rest

/-- Extends `hasCycE` over a decorator list. -/
def hasCycD : List Expr → Bool
  | [] => false
  | d :: rest => hasCycE d || hasCycD rest

mutual

/-- Extends `hasCycE` over one line. -/
def hasCycL : Line → Bool
  | .simple ss => hasCycSs ss
  | .emptyLine _ => false
  | .funcDef decs _ _ body => hasCycD decs || hasCycLs body

/-- Does the module contain a call matching rule 3? -/
def hasCycLs : Lines → Bool
  | .nil => false
  | .cons l rest => hasCycL l || hasCycLs rest

end

/-- Does this call node match rule 2 of `ClockTransformer.leave_Call`:
func is the name `Clock` and a `units=` keyword argument is present? -/
def isClockUnitsCall (f : Expr) (args : Args) : Bool :=
  match f with
  | .name "Clock" => hasKwArg "units" args
  | _ => false

mutual

/-- No sub-node of the expression matches any `ClockTransformer` pattern
(rule 1 `cocotb.start_soon(x.start(...))`, rule 2 `Clock(units=...)`,
rule 3 `x.start(cycles=...)`, or a `frequency` attribute access). -/
def noPatExpr : Expr → Bool
  | .name _ => true
  | .num _ => true
  | .strLit _ => true
  | .attr v a => !(a = "frequency" : Bool) && noPatExpr v
  | .call f args =>
    !(ruleStartSoon (.call f args)).isSome &&
    !(isClockUnitsCall f args) && !(isStartCyclesCall f args) &&
    noPatExpr f && noPatArgs args
  | .awaitE e => noPatExpr e
  | .yieldNone => true
  | .yieldSome e => noPatExpr e

/-- Extends `noPatExpr` over an argument list. -/
def noPatArgs : Args → Bool
  | .nil => true
  | .cons (.mk _ v) rest => noPatExpr v && noPatArgs rest

end

/-- Extends `noPatExpr` over a small statement. -/
def noPatStmt : Stmt → Bool
  | .exprStmt e => noPatExpr e
  | .raiseNone => true
  | .raiseSome e => noPatExpr e
  | .returnNone => true
  | .returnSome e => noPatExpr e
  | .passS => true

/-- Extends `noPatStmt` over a statement list. -/
def noPatStmts : List Stmt → Bool
  | [] => true
  | st :: rest => noPatStmt st && noPatStmts rest

/-- Extends `noPatExpr` over a decorator list. -/
def noPatDecs : List Expr → Bool
  | [] => true
  | d :: rest => noPatExpr d && noPatDecs rest

mutual

/-- Extends `noPatExpr` over one line. -/
def noPatLine : Line → Bool
  | .simple ss => noPatStmts ss
  | .emptyLine _ => true
  | .funcDef decs _ _ body => noPatDecs decs && noPatLines body

/-- No sub-node of the module matches any `ClockTransformer` pattern. -/
def noPatLines : Lines → Bool
  | .nil => true
  | .cons l rest => noPatLine l && noPatLines rest

end

mutual

/-- Occurrences of the comment `w` on one line (looking into function
bodies). -/
def countWarnL (w : String) : Line → Nat
  | .simple _ => 0
  | .emptyLine c => if c = w then 1 else 0
  | .funcDef _ _ _ body => countWarn w body

/-- Occurrences of the comment `w` in a module body. -/
def countWarn (w : String) : Lines → Nat
  | .nil => 0
  | .cons l rest => countWarnL w l + countWarn w rest

end

/-! ## Helper lemmas on argument lists -/

theorem renameUnitsArgs_of_no_units :
    (as : Args) → hasKwArg "units" as = false → renameUnitsArgs as = as
  | .nil, _ => rfl
  | .cons (.mk kw v) rest, h => by
    simp only [hasKwArg, Bool.or_eq_false_iff, decide_eq_false_iff_not] at h
    simp [renameUnitsArgs, h.1, renameUnitsArgs_of_no_units rest h.2]

theorem renameUnitsArgs_ne_of_units :
    (as : Args) → hasKwArg "units" as = true → renameUnitsArgs as ≠ as
  | .cons (.mk kw v) rest, h => by
    simp only [hasKwArg, Bool.or_eq_true, decide_eq_true_eq] at h
    by_cases hkw : kw = some "units"
    · subst hkw
      simp [renameUnitsArgs]
    · have hr : hasKwArg "units" rest = true := by
        rcases h with h | h
        · exact absurd h hkw
        · exact h
      simp only [renameUnitsArgs, if_neg hkw, ne_eq, Args.cons.injEq]
      intro hc
      exact renameUnitsArgs_ne_of_units rest hr hc.2

theorem argsValues_renameUnitsArgs :
    (as : Args) → argsValues (renameUnitsArgs as) = argsValues as
  | .nil => rfl
  | .cons (.mk kw v) rest => by
    by_cases hkw : kw = some "units" <;>
      simp [renameUnitsArgs, hkw, argsValues, argsValues_renameUnitsArgs rest]

theorem renameUnitsArgs_cons_of_ne (kw : Option String) (v : Expr) (rest : Args)
    (h : kw ≠ some "units") :
    renameUnitsArgs (.cons (.mk kw v) rest) = .cons (.mk kw v) (renameUnitsArgs rest) := by
  simp [renameUnitsArgs, h]

theorem removeCyclesArgs_of_no_cycles :
    (as : Args) → hasKwArg "cycles" as = false → removeCyclesArgs as = as
  | .nil, _ => rfl
  | .cons (.mk kw v) rest, h => by
    simp only [hasKwArg, Bool.or_eq_false_iff, decide_eq_false_iff_not] at h
    simp [removeCyclesArgs, h.1, removeCyclesArgs_of_no_cycles rest h.2]

theorem argsLen_removeCyclesArgs_le :
    (as : Args) → argsLen (removeCyclesArgs as) ≤ argsLen as
  | .nil => le_refl _
  | .cons (.mk kw v) rest => by
    by_cases hkw : kw = some "cycles"
    · simp only [removeCyclesArgs, if_pos hkw, argsLen]
      exact le_trans (argsLen_removeCyclesArgs_le rest) (Nat.le_succ _)
    · simp only [removeCyclesArgs, if_neg hkw, argsLen]
      exact Nat.succ_le_succ (argsLen_removeCyclesArgs_le rest)

theorem argsLen_removeCyclesArgs_lt :
    (as : Args) → hasKwArg "cycles" as = true → argsLen (removeCyclesArgs as) < argsLen as
  | .cons (.mk kw v) rest, h => by
    simp only [hasKwArg, Bool.or_eq_true, decide_eq_true_eq] at h
    by_cases hkw : kw = some "cycles"
    · simp only [removeCyclesArgs, if_pos hkw, argsLen]
      exact Nat.lt_succ_of_le (argsLen_removeCyclesArgs_le rest)
    · have hr : hasKwArg "cycles" rest = true := by
        rcases h with h | h
        · exact absurd h hkw
        · exact h
      simp only [removeCyclesArgs, if_neg hkw, argsLen]
      exact Nat.succ_lt_succ (argsLen_removeCyclesArgs_lt rest hr)

theorem removeCyclesArgs_ne_of_cycles (as : Args) (h : hasKwArg "cycles" as = true) :
    removeCyclesArgs as ≠ as := by
  intro hc
  have := argsLen_removeCyclesArgs_lt as h
  rw [hc] at this
  exact lt_irrefl _ this

/-! ## Decline lemmas for the CocotbTransformer rules -/

theorem cmtLeaveRaise_decline : (st : Stmt) → raiseRewriteApplies st = false →
    cmtLeaveRaise st = st := by
  intro st h
  unfold cmtLeaveRaise
  split
  · simp [raiseRewriteApplies, matchesReturnValueCall] at h
  · rfl

theorem cmtLeaveYield_decline (e : Expr) (h : isCallB e = false) :
    cmtLeaveYield (.yieldSome e) = .yieldSome e := by
  simp [cmtLeaveYield, h]

theorem cmtLeaveCall_decline (f : Expr) (args : Args) (h : isForkName f = false) :
    cmtLeaveCall (.call f args) = .call f args := by
  unfold cmtLeaveCall
  split
  · next heq =>
    rw [show f = .name "fork" from (Expr.call.injEq .. ).mp heq |>.1] at h
    simp [isForkName] at h
  · rfl

theorem cmtLeaveFunctionDef_decline (decs : List Expr) (isAsync : Bool) (nm : String)
    (body : Lines) (h : decs.any isCoroutineDecorator = false) :
    cmtLeaveFunctionDef (.funcDef decs isAsync nm body) = .funcDef decs isAsync nm body := by
  simp [cmtLeaveFunctionDef, h]

/-! ## Evaluation lemmas for ClockTransformer.leave_Call -/

/-- Rule 1 cannot fire on a call whose func is an attribute named `start`
(the matcher needs `start_soon`). -/
theorem ruleStartSoon_start_attr (recv : Expr) (oargs : Args) :
    ruleStartSoon (.call (.attr recv "start") oargs) = none := by
  unfold ruleStartSoon
  split
  · next heq => simp at heq
  · rfl

/-- Rule 1 cannot fire on a call whose func is a plain name. -/
theorem ruleStartSoon_name (nm : String) (oargs : Args) :
    ruleStartSoon (.call (.name nm) oargs) = none := by
  unfold ruleStartSoon
  split
  · next heq => simp at heq
  · rfl

theorem ruleStartSoon_arg_none (oargs : Args) (h : startSoonArgMatch oargs = false) :
    ruleStartSoon (.call (.attr (.name "cocotb") "start_soon") oargs) = none := by
  unfold ruleStartSoon
  split
  · next heq =>
    obtain ⟨-, hargs⟩ := (Expr.call.injEq .. ).mp heq
    subst hargs
    split
    · simp [startSoonArgMatch] at h
    · rfl
  · rfl

/-- Rule 1, firing case: `cocotb.start_soon(recv.start(...))` with exactly one
argument is replaced by the original inner call, and the pass is marked
modified. -/
theorem ctLeaveCall_start_soon (kw : Option String) (recv : Expr) (iargs : Args)
    (upd : Expr) (s : CTState) :
    ctLeaveCall (.call (.attr (.name "cocotb") "start_soon")
        (.cons (.mk kw (.call (.attr recv "start") iargs)) .nil)) upd s
      = (.call (.attr recv "start") iargs, s.mark_modified) := rfl

/-- Rule 1, declining case: any other `cocotb.start_soon(...)` call falls
through all three rules and the updated node is returned with the state
untouched. -/
theorem ctLeaveCall_start_soon_decline (oargs : Args) (upd : Expr) (s : CTState)
    (h : startSoonArgMatch oargs = false) :
    ctLeaveCall (.call (.attr (.name "cocotb") "start_soon") oargs) upd s = (upd, s) := by
  unfold ctLeaveCall
  rw [ruleStartSoon_arg_none oargs h]
  rfl

/-- Rule 2, firing case: a `Clock(...)` call carrying a `units=` keyword gets
the renamed argument list installed in the updated node, and the pass is
marked modified. -/
theorem ctLeaveCall_clock_units (oargs : Args) (ufunc : Expr) (uargs : Args)
    (s : CTState) (h : hasKwArg "units" oargs = true) :
    ctLeaveCall (.call (.name "Clock") oargs) (.call ufunc uargs) s
      = (.call ufunc (renameUnitsArgs oargs), s.mark_modified) := by
  unfold ctLeaveCall
  rw [ruleStartSoon_name]
  simp only [h, if_true, if_pos (renameUnitsArgs_ne_of_units oargs h)]
  rfl

/-- Rule 2, declining case: a `Clock(...)` call without a `units=` keyword is
returned as the updated node with the state untouched. -/
theorem ctLeaveCall_clock_no_units (oargs : Args) (upd : Expr) (s : CTState)
    (h : hasKwArg "units" oargs = false) :
    ctLeaveCall (.call (.name "Clock") oargs) upd s = (upd, s) := by
  unfold ctLeaveCall
  rw [ruleStartSoon_name]
  simp only [h, if_false, renameUnitsArgs_of_no_units oargs h, ne_eq,
    not_true_eq_false, Bool.false_eq_true, if_neg]
  rfl

/-- Rule 3, firing case: a call on an attribute named `start` with a
`cycles=` keyword gets that keyword dropped from the updated node, the pass
marked modified and the `cycles_found` diagnostic flag set. -/
theorem ctLeaveCall_start_cycles (recv : Expr) (oargs : Args) (ufunc : Expr)
    (uargs : Args) (s : CTState) (h : hasKwArg "cycles" oargs = true) :
    ctLeaveCall (.call (.attr recv "start") oargs) (.call ufunc uargs) s
      = (.call ufunc (removeCyclesArgs oargs), ⟨true, s.frequency_found, true⟩) := by
  unfold ctLeaveCall
  rw [ruleStartSoon_start_attr recv oargs]
  show ctRule3 (.call (.attr recv "start") oargs) (.call ufunc uargs) s = _
  unfold ctRule3
  simp only [h, if_true, if_pos (removeCyclesArgs_ne_of_cycles oargs h)]
  rfl

/-- Rule 3, declining case: a call on an attribute named `start` without a
`cycles=` keyword is returned as the updated node with the state
untouched. -/
theorem ctLeaveCall_start_no_cycles (recv : Expr) (oargs : Args) (upd : Expr)
    (s : CTState) (h : hasKwArg "cycles" oargs = false) :
    ctLeaveCall (.call (.attr recv "start") oargs) upd s = (upd, s) := by
  unfold ctLeaveCall
  rw [ruleStartSoon_start_attr recv oargs]
  show ctRule3 (.call (.attr recv "start") oargs) upd s = _
  unfold ctRule3
  simp only [h, if_false, removeCyclesArgs_of_no_cycles oargs h, ne_eq,
    not_true_eq_false, Bool.false_eq_true, if_neg]

/-! ## State-flag characterization of the ClockTransformer traversal -/

theorem ruleStartSoon_some_func (f : Expr) (args : Args) (inner : Expr)
    (h : ruleStartSoon (.call f args) = some inner) :
    f = .attr (.name "cocotb") "start_soon" := by
  unfold ruleStartSoon at h
  split at h
  · next heq => exact ((Expr.call.injEq .. ).mp heq).1
  · exact absurd h (by simp)

/-- Lemma: `isStartCyclesCall` is false when the func is not an attribute named
`start`. -/
theorem isStartCyclesCall_false (f : Expr) (args : Args)
    (h : ∀ recv, f ≠ .attr recv "start") : isStartCyclesCall f args = false := by
  unfold isStartCyclesCall
  split
  · next recv => exact absurd rfl (h recv)
  · rfl

/-- The state after `ClockTransformer.leave_Attribute` on an attribute node:
`modified` and `frequency_found` are or-ed with the name test, `cycles_found`
is untouched. -/
theorem ctLeaveAttr_flags (v : Expr) (a : String) (upd : Expr) (s : CTState) :
    (ctLeaveAttr (.attr v a) upd s).2
      = { s with modified := s.modified || (a = "frequency" : Bool),
                 frequency_found := s.frequency_found || (a = "frequency" : Bool) } := by
  by_cases h : a = "frequency"
  · subst h
    simp [ctLeaveAttr, CTState.mark_modified]
  · simp [ctLeaveAttr, h]

/-- Lemma: `ClockTransformer.leave_Attribute` returns the updated node itself. -/
theorem ctLeaveAttr_fst (v : Expr) (a : String) (upd : Expr) (s : CTState) :
    (ctLeaveAttr (.attr v a) upd s).1 = upd := by
  by_cases h : a = "frequency" <;> simp [ctLeaveAttr, h]

/-- The state after rule 3 (with fall-through): `frequency_found` untouched,
`cycles_found` or-ed with the rule-3 match test. -/
theorem ctRule3_flags (f : Expr) (args : Args) (upd : Expr) (s : CTState) :
    ((ctRule3 (.call f args) upd s).2).frequency_found = s.frequency_found ∧
    ((ctRule3 (.call f args) upd s).2).cycles_found
      = (s.cycles_found || isStartCyclesCall f args) := by
  unfold ctRule3
  split
  · rename_i heq
    obtain ⟨hf, hargs⟩ := (Expr.call.injEq .. ).mp heq
    subst hf
    subst hargs
    by_cases hcy : hasKwArg "cycles" args = true
    · have hne := removeCyclesArgs_ne_of_cycles args hcy
      simp [CTState.mark_modified, isStartCyclesCall, hcy, hne]
    · have hcy' : hasKwArg "cycles" args = false := eq_false_of_ne_true hcy
      have hid := removeCyclesArgs_of_no_cycles args hcy'
      simp [isStartCyclesCall, hcy', hid]
  · next hne =>
    refine ⟨rfl, ?_⟩
    have hf : isStartCyclesCall f args = false := by
      unfold isStartCyclesCall
      split
      · next recv2 => exact (hne recv2 args rfl).elim
      · rfl
    simp [hf]

/-- The state after `ClockTransformer.leave_Call` on a call node:
`frequency_found` untouched, `cycles_found` or-ed with the rule-3 match
test. -/
theorem ctLeaveCall_flags (f : Expr) (args : Args) (upd : Expr) (s : CTState) :
    ((ctLeaveCall (.call f args) upd s).2).frequency_found = s.frequency_found ∧
    ((ctLeaveCall (.call f args) upd s).2).cycles_found
      = (s.cycles_found || isStartCyclesCall f args) := by
  unfold ctLeaveCall
  split
  · next inner heq =>
    have hf := ruleStartSoon_some_func f args inner heq
    subst hf
    exact ⟨rfl, by simp [isStartCyclesCall, CTState.mark_modified]⟩
  · split
    · rename_i heq
      obtain ⟨hf, hargs⟩ := (Expr.call.injEq .. ).mp heq
      subst hf
      subst hargs
      by_cases hu : hasKwArg "units" args = true
      · have hne := renameUnitsArgs_ne_of_units args hu
        simp [CTState.mark_modified, isStartCyclesCall, hu, hne]
      · have hu' : hasKwArg "units" args = false := eq_false_of_ne_true hu
        have hid := renameUnitsArgs_of_no_units args hu'
        simp only [hu', Bool.false_eq_true, if_false, hid, ne_eq,
          not_true_eq_false, if_neg]
        exact ctRule3_flags (.name "Clock") args upd s
    · exact ctRule3_flags f args upd s

mutual

theorem ctExpr_freq : ∀ (e : Expr) (s : CTState),
    ((ctExpr e s).2).frequency_found = (s.frequency_found || hasFreqE e)
  | .name v, s => by simp [ctExpr, hasFreqE]
  | .num n, s => by simp [ctExpr, hasFreqE]
  | .strLit v, s => by simp [ctExpr, hasFreqE]
  | .attr v a, s => by
    simp only [ctExpr, ctLeaveAttr_flags]
    simp [ctExpr_freq v s, hasFreqE, Bool.or_assoc, Bool.or_comm, Bool.or_left_comm]
  | .call f args, s => by
    simp only [ctExpr]
    rw [(ctLeaveCall_flags f args _ _).1, ctArgs_freq args _, ctExpr_freq f s]
    simp [hasFreqE, Bool.or_assoc]
  | .awaitE e, s => by simp [ctExpr, hasFreqE, ctExpr_freq e s]
  | .yieldNone, s => by simp [ctExpr, hasFreqE]
  | .yieldSome e, s => by simp [ctExpr, hasFreqE, ctExpr_freq e s]

theorem ctArgs_freq : ∀ (as : Args) (s : CTState),
    ((ctArgs as s).2).frequency_found = (s.frequency_found || hasFreqA as)
  | .nil, s => by simp [ctArgs, hasFreqA]
  | .cons (.mk kw v) rest, s => by
    simp only [ctArgs]
    rw [ctArgs_freq rest _, ctExpr_freq v s]
    simp [hasFreqA, Bool.or_assoc]

end

mutual

theorem ctExpr_cyc : ∀ (e : Expr) (s : CTState),
    ((ctExpr e s).2).cycles_found = (s.cycles_found || hasCycE e)
  | .name v, s => by simp [ctExpr, hasCycE]
  | .num n, s => by simp [ctExpr, hasCycE]
  | .strLit v, s => by simp [ctExpr, hasCycE]
  | .attr v a, s => by
    simp only [ctExpr, ctLeaveAttr_flags]
    simp [ctExpr_cyc v s, hasCycE]
  | .call f args, s => by
    simp only [ctExpr]
    rw [(ctLeaveCall_flags f args _ _).2, ctArgs_cyc args _, ctExpr_cyc f s]
    simp [hasCycE, Bool.or_assoc, Bool.or_comm, Bool.or_left_comm]
  | .awaitE e, s => by simp [ctExpr, hasCycE, ctExpr_cyc e s]
  | .yieldNone, s => by simp [ctExpr, hasCycE]
  | .yieldSome e, s => by simp [ctExpr, hasCycE, ctExpr_cyc e s]

theorem ctArgs_cyc : ∀ (as : Args) (s : CTState),
    ((ctArgs as s).2).cycles_found = (s.cycles_found || hasCycA as)
  | .nil, s => by simp [ctArgs, hasCycA]
  | .cons (.mk kw v) rest, s => by
    simp only [ctArgs]
    rw [ctArgs_cyc rest _, ctExpr_cyc v s]
    simp [hasCycA, Bool.or_assoc]

end

theorem ctStmt_freq (st : Stmt) (s : CTState) :
    ((ctStmt st s).2).frequency_found = (s.frequency_found || hasFreqS st) := by
  cases st <;> simp [ctStmt, hasFreqS, ctExpr_freq]

theorem ctStmt_cyc (st : Stmt) (s : CTState) :
    ((ctStmt st s).2).cycles_found = (s.cycles_found || hasCycS st) := by
  cases st <;> simp [ctStmt, hasCycS, ctExpr_cyc]

theorem ctStmts_freq : ∀ (ss : List Stmt) (s : CTState),
    ((ctStmts ss s).2).frequency_found = (s.frequency_found || hasFreqSs ss)
  | [], s => by simp [ctStmts, hasFreqSs]
  | st :: rest, s => by
    simp only [ctStmts]
    rw [ctStmts_freq rest _, ctStmt_freq st s]
    simp [hasFreqSs, Bool.or_assoc]

theorem ctStmts_cyc : ∀ (ss : List Stmt) (s : CTState),
    ((ctStmts ss s).2).cycles_found = (s.cycles_found || hasCycSs ss)
  | [], s => by simp [ctStmts, hasCycSs]
  | st :: rest, s => by
    simp only [ctStmts]
    rw [ctStmts_cyc rest _, ctStmt_cyc st s]
    simp [hasCycSs, Bool.or_assoc]

theorem ctDecs_freq : ∀ (ds : List Expr) (s : CTState),
    ((ctDecs ds s).2).frequency_found = (s.frequency_found || hasFreqD ds)
  | [], s => by simp [ctDecs, hasFreqD]
  | d :: rest, s => by
    simp only [ctDecs]
    rw [ctDecs_freq rest _, ctExpr_freq d s]
    simp [hasFreqD, Bool.or_assoc]

theorem ctDecs_cyc : ∀ (ds : List Expr) (s : CTState),
    ((ctDecs ds s).2).cycles_found = (s.cycles_found || hasCycD ds)
  | [], s => by simp [ctDecs, hasCycD]
  | d :: rest, s => by
    simp only [ctDecs]
    rw [ctDecs_cyc rest _, ctExpr_cyc d s]
    simp [hasCycD, Bool.or_assoc]

mutual

theorem ctLine_freq : ∀ (l : Line) (s : CTState),
    ((ctLine l s).2).frequency_found = (s.frequency_found || hasFreqL l)
  | .simple ss, s => by simp [ctLine, hasFreqL, ctStmts_freq]
  | .emptyLine c, s => by simp [ctLine, hasFreqL]
  | .funcDef decs ia nm body, s => by
    simp only [ctLine]
    rw [ctLines_freq body _, ctDecs_freq decs s]
    simp [hasFreqL, Bool.or_assoc]

theorem ctLines_freq : ∀ (ls : Lines) (s : CTState),
    ((ctLines ls s).2).frequency_found = (s.frequency_found || hasFreqLs ls)
  | .nil, s => by simp [ctLines, hasFreqLs]
  | .cons l rest, s => by
    simp only [ctLines]
    rw [ctLines_freq rest _, ctLine_freq l s]
    simp [hasFreqLs, Bool.or_assoc]

end

mutual

theorem ctLine_cyc : ∀ (l : Line) (s : CTState),
    ((ctLine l s).2).cycles_found = (s.cycles_found || hasCycL l)
  | .simple ss, s => by simp [ctLine, hasCycL, ctStmts_cyc]
  | .emptyLine c, s => by simp [ctLine, hasCycL]
  | .funcDef decs ia nm body, s => by
    simp only [ctLine]
    rw [ctLines_cyc body _, ctDecs_cyc decs s]
    simp [hasCycL, Bool.or_assoc]

theorem ctLines_cyc : ∀ (ls : Lines) (s : CTState),
    ((ctLines ls s).2).cycles_found = (s.cycles_found || hasCycLs ls)
  | .nil, s => by simp [ctLines, hasCycLs]
  | .cons l rest, s => by
    simp only [ctLines]
    rw [ctLines_cyc rest _, ctLine_cyc l s]
    simp [hasCycLs, Bool.or_assoc]

end

/-! ## Warning-comment counting -/

theorem freq_ne_cyc : freqWarning ≠ cyclesWarning := by decide

mutual

theorem ctLine_countWarn : ∀ (l : Line) (s : CTState) (w : String),
    countWarnL w (ctLine l s).1 = countWarnL w l
  | .simple ss, s, w => by simp [ctLine, countWarnL]
  | .emptyLine c, s, w => by simp [ctLine, countWarnL]
  | .funcDef decs ia nm body, s, w => by
    simp only [ctLine, countWarnL]
    exact ctLines_countWarn body _ w

theorem ctLines_countWarn : ∀ (ls : Lines) (s : CTState) (w : String),
    countWarn w (ctLines ls s).1 = countWarn w ls
  | .nil, s, w => rfl
  | .cons l rest, s, w => by
    simp only [ctLines, countWarn]
    rw [ctLine_countWarn l s w, ctLines_countWarn rest _ w]

end

theorem countWarn_ctLeaveModule_freq (upd : Lines) (s : CTState) :
    countWarn freqWarning (ctLeaveModule upd s)
      = (if s.frequency_found then 1 else 0) + countWarn freqWarning upd := by
  unfold ctLeaveModule
  cases hf : s.frequency_found <;> cases hc : s.cycles_found <;>
    simp [prependComments, countWarn, countWarnL, Ne.symm freq_ne_cyc]

theorem countWarn_ctLeaveModule_cyc (upd : Lines) (s : CTState) :
    countWarn cyclesWarning (ctLeaveModule upd s)
      = (if s.cycles_found then 1 else 0) + countWarn cyclesWarning upd := by
  unfold ctLeaveModule
  cases hf : s.frequency_found <;> cases hc : s.cycles_found <;>
    simp [prependComments, countWarn, countWarnL, freq_ne_cyc]

/-- C3 counterexample: on `raise ReturnValue()` with no argument, the rewrite
produces `return None` (an explicit `None` value), not the bare `return`
claimed. -/
theorem c3_counterexample :
    cmtLeaveRaise (.raiseSome (.call (.name "ReturnValue") .nil)) =
      .returnSome (.name "None") ∧
    cmtLeaveRaise (.raiseSome (.call (.name "ReturnValue") .nil)) ≠ .returnNone :=
  ⟨rfl, by decide⟩

/-- C3 (amended): `raise ReturnValue(x)` rewrites to `return x` (the first
argument's value), `raise ReturnValue()` with no argument rewrites to
`return None` (not a bare `return`), and raise statements of any other
shape are left unchanged. -/
theorem c3_raise_rewrite :
    (∀ (kw : Option String) (x : Expr) (rest : Args),
      cmtLeaveRaise (.raiseSome (.call (.name "ReturnValue") (.cons (.mk kw x) rest))) =
        .returnSome x) ∧
    cmtLeaveRaise (.raiseSome (.call (.name "ReturnValue") .nil)) =
      .returnSome (.name "None") ∧
    (∀ st : Stmt, raiseRewriteApplies st = false → cmtLeaveRaise st = st) :=
  ⟨fun _ _ _ => rfl, rfl, cmtLeaveRaise_decline⟩

/-- Witness for C3 (amended) at concrete inputs: `raise ReturnValue(42)`
becomes `return 42`, and `raise x` is left unchanged. -/
theorem c3_raise_rewrite_witness :
    cmtLeaveRaise (.raiseSome (.call (.name "ReturnValue")
        (.cons (.mk none (.num 42)) .nil))) = .returnSome (.num 42) ∧
    raiseRewriteApplies (.raiseSome (.name "x")) = false ∧
    cmtLeaveRaise (.raiseSome (.name "x")) = .raiseSome (.name "x") :=
  ⟨c3_raise_rewrite.1 none (.num 42) .nil, by decide,
    c3_raise_rewrite.2.2 (.raiseSome (.name "x")) (by decide)⟩

/-- C4: every CocotbTransformer rewrite rule declines (returns its input
unchanged, without any exception) on shapes it does not recognize; in
particular a bare `raise` (absent exception expression) and a bare `yield`
(absent value) pass through unchanged — the libcst matcher returns false
on an absent sub-node rather than raising. -/
theorem c4_rules_total :
    cmtLeaveRaise .raiseNone = .raiseNone ∧
    cmtLeaveYield .yieldNone = .yieldNone ∧
    (∀ e : Expr, isCallB e = false → cmtLeaveYield (.yieldSome e) = .yieldSome e) ∧
    (∀ st : Stmt, raiseRewriteApplies st = false → cmtLeaveRaise st = st) ∧
    (∀ (f : Expr) (args : Args), isForkName f = false →
      cmtLeaveCall (.call f args) = .call f args) ∧
    (∀ (decs : List Expr) (isAsync : Bool) (nm : String) (body : Lines),
      decs.any isCoroutineDecorator = false →
      cmtLeaveFunctionDef (.funcDef decs isAsync nm body) = .funcDef decs isAsync nm body) :=
  ⟨rfl, rfl, cmtLeaveYield_decline, cmtLeaveRaise_decline, cmtLeaveCall_decline,
    cmtLeaveFunctionDef_decline⟩

/-- Witness for C4 at concrete unrecognized shapes. -/
theorem c4_rules_total_witness :
    cmtLeaveRaise .raiseNone = .raiseNone ∧
    cmtLeaveYield .yieldNone = .yieldNone ∧
    cmtLeaveYield (.yieldSome (.name "sig")) = .yieldSome (.name "sig") ∧
    cmtLeaveRaise (.raiseSome (.name "err")) = .raiseSome (.name "err") ∧
    cmtLeaveCall (.call (.name "Timer") .nil) = .call (.name "Timer") .nil ∧
    cmtLeaveFunctionDef (.funcDef [] false "tb" .nil) = .funcDef [] false "tb" .nil :=
  ⟨c4_rules_total.1, c4_rules_total.2.1,
    c4_rules_total.2.2.1 (.name "sig") (by decide),
    c4_rules_total.2.2.2.1 (.raiseSome (.name "err")) (by decide),
    c4_rules_total.2.2.2.2.1 (.name "Timer") .nil (by decide),
    c4_rules_total.2.2.2.2.2 [] false "tb" .nil (by decide)⟩

/-! ## Claim theorems: C5, C6, C7, C8, C10 -/

theorem removeCyclesArgs_cons_of_ne (kw : Option String) (v : Expr) (rest : Args)
    (h : kw ≠ some "cycles") :
    removeCyclesArgs (.cons (.mk kw v) rest) = .cons (.mk kw v) (removeCyclesArgs rest) := by
  simp [removeCyclesArgs, h]

/-- C5: for each removed-attribute kind — `frequency` attribute accesses,
and `start(cycles=...)` keyword drops — a module containing at least one
occurrence of that kind gets exactly one advisory comment of that kind
inserted at the top of the rewritten module: the occurrence count of the
kind's comment grows by exactly one, however many occurrences (N ≥ 1) the
module contains. -/
theorem c5_warning_dedup :
    (∀ m : Lines, hasFreqLs m = true →
      countWarn freqWarning (ctRun m).1 = countWarn freqWarning m + 1) ∧
    (∀ m : Lines, hasCycLs m = true →
      countWarn cyclesWarning (ctRun m).1 = countWarn cyclesWarning m + 1) := by
  constructor
  · intro m h
    simp only [ctRun]
    rw [countWarn_ctLeaveModule_freq, ctLines_freq, ctLines_countWarn]
    simp [CTState.init, h, Nat.add_comm]
  · intro m h
    simp only [ctRun]
    rw [countWarn_ctLeaveModule_cyc, ctLines_cyc, ctLines_countWarn]
    simp [CTState.init, h, Nat.add_comm]

/-- Witness for C5 on a module with two `frequency` accesses and a module
with two `start(cycles=...)` calls: in each, exactly one comment of the
matching kind is inserted, not two. -/
theorem c5_warning_dedup_witness :
    hasFreqLs (.cons (.simple [.exprStmt (.attr (.name "a") "frequency"),
        .exprStmt (.attr (.name "b") "frequency")]) .nil) = true ∧
    countWarn freqWarning
        (ctRun (.cons (.simple [.exprStmt (.attr (.name "a") "frequency"),
          .exprStmt (.attr (.name "b") "frequency")]) .nil)).1
      = countWarn freqWarning (.cons (.simple [.exprStmt (.attr (.name "a") "frequency"),
          .exprStmt (.attr (.name "b") "frequency")]) .nil) + 1 ∧
    hasCycLs (.cons (.simple [.exprStmt (.call (.attr (.name "c1") "start")
        (.cons (.mk (some "cycles") (.num 4)) .nil)),
      .exprStmt (.call (.attr (.name "c2") "start")
        (.cons (.mk (some "cycles") (.num 8)) .nil))]) .nil) = true ∧
    countWarn cyclesWarning
        (ctRun (.cons (.simple [.exprStmt (.call (.attr (.name "c1") "start")
          (.cons (.mk (some "cycles") (.num 4)) .nil)),
        .exprStmt (.call (.attr (.name "c2") "start")
          (.cons (.mk (some "cycles") (.num 8)) .nil))]) .nil)).1
      = countWarn cyclesWarning (.cons (.simple [.exprStmt (.call (.attr (.name "c1") "start")
          (.cons (.mk (some "cycles") (.num 4)) .nil)),
        .exprStmt (.call (.attr (.name "c2") "start")
          (.cons (.mk (some "cycles") (.num 8)) .nil))]) .nil) + 1 :=
  ⟨by decide, c5_warning_dedup.1 _ (by decide), by decide, c5_warning_dedup.2 _ (by decide)⟩

/-- C6: a call on a method named `start` carrying a `cycles=` keyword has
that keyword dropped while every other argument is preserved in order, the
pass is marked modified, the `cycles_found` diagnostic flag is set, and the
file gets the manual-review advisory comment (no error is ever raised —
every branch of the rule is total). -/
theorem c6_cycles_removed :
    (∀ (recv : Expr) (oargs : Args) (ufunc : Expr) (uargs : Args) (s : CTState),
      hasKwArg "cycles" oargs = true →
      ctLeaveCall (.call (.attr recv "start") oargs) (.call ufunc uargs) s
        = (.call ufunc (removeCyclesArgs oargs), ⟨true, s.frequency_found, true⟩)) ∧
    (∀ (kw : Option String) (v : Expr) (rest : Args), kw ≠ some "cycles" →
      removeCyclesArgs (.cons (.mk kw v) rest) = .cons (.mk kw v) (removeCyclesArgs rest)) ∧
    (∀ m : Lines, hasCycLs m = true → 0 < countWarn cyclesWarning (ctRun m).1) := by
  refine ⟨ctLeaveCall_start_cycles, removeCyclesArgs_cons_of_ne, ?_⟩
  intro m h
  simp only [ctRun]
  rw [countWarn_ctLeaveModule_cyc, ctLines_cyc]
  simp [CTState.init, h]

/-- Witness for C6 at `clk.start(cycles=4, 5)`: the `cycles` keyword is
dropped, the positional argument kept, and the advisory comment appears in
the rewritten module. -/
theorem c6_cycles_removed_witness :
    ctLeaveCall (.call (.attr (.name "clk") "start")
        (.cons (.mk (some "cycles") (.num 4)) (.cons (.mk none (.num 5)) .nil)))
        (.call (.attr (.name "clk") "start")
          (.cons (.mk (some "cycles") (.num 4)) (.cons (.mk none (.num 5)) .nil)))
        CTState.init
      = (.call (.attr (.name "clk") "start")
          (removeCyclesArgs (.cons (.mk (some "cycles") (.num 4))
            (.cons (.mk none (.num 5)) .nil))), ⟨true, false, true⟩) ∧
    removeCyclesArgs (.cons (.mk none (.num 5)) .nil)
      = .cons (.mk none (.num 5)) (removeCyclesArgs .nil) ∧
    0 < countWarn cyclesWarning
        (ctRun (.cons (.simple [.exprStmt (.call (.attr (.name "clk") "start")
          (.cons (.mk (some "cycles") (.num 4)) .nil))]) .nil)).1 :=
  ⟨c6_cycles_removed.1 (.name "clk") _ _ _ CTState.init (by decide),
    c6_cycles_removed.2.1 none (.num 5) .nil (by decide),
    c6_cycles_removed.2.2 _ (by decide)⟩

/-- C7: in a call to the `Clock` constructor, every `units=` keyword is
renamed to `unit=` with its value expression untouched, and every argument
not carrying the legacy keyword passes through unchanged in its original
position. -/
theorem c7_units_renamed :
    (∀ (oargs : Args) (ufunc : Expr) (uargs : Args) (s : CTState),
      hasKwArg "units" oargs = true →
      ctLeaveCall (.call (.name "Clock") oargs) (.call ufunc uargs) s
        = (.call ufunc (renameUnitsArgs oargs), s.mark_modified)) ∧
    (∀ as : Args, argsValues (renameUnitsArgs as) = argsValues as) ∧
    (∀ (v : Expr) (rest : Args),
      renameUnitsArgs (.cons (.mk (some "units") v) rest)
        = .cons (.mk (some "unit") v) (renameUnitsArgs rest)) ∧
    (∀ (kw : Option String) (v : Expr) (rest : Args), kw ≠ some "units" →
      renameUnitsArgs (.cons (.mk kw v) rest) = .cons (.mk kw v) (renameUnitsArgs rest)) :=
  ⟨ctLeaveCall_clock_units, argsValues_renameUnitsArgs,
    fun v rest => by simp [renameUnitsArgs], renameUnitsArgs_cons_of_ne⟩

/-- Witness for C7 at `Clock(sig, 10, units="ns")`. -/
theorem c7_units_renamed_witness :
    ctLeaveCall (.call (.name "Clock")
        (.cons (.mk none (.name "sig")) (.cons (.mk none (.num 10))
          (.cons (.mk (some "units") (.strLit "ns")) .nil))))
        (.call (.name "Clock")
          (.cons (.mk none (.name "sig")) (.cons (.mk none (.num 10))
            (.cons (.mk (some "units") (.strLit "ns")) .nil))))
        CTState.init
      = (.call (.name "Clock")
          (renameUnitsArgs (.cons (.mk none (.name "sig")) (.cons (.mk none (.num 10))
            (.cons (.mk (some "units") (.strLit "ns")) .nil)))),
          CTState.init.mark_modified) ∧
    renameUnitsArgs (.cons (.mk (some "units") (.strLit "ns")) .nil)
      = .cons (.mk (some "unit") (.strLit "ns")) (renameUnitsArgs .nil) ∧
    renameUnitsArgs (.cons (.mk none (.name "sig")) .nil)
      = .cons (.mk none (.name "sig")) (renameUnitsArgs .nil) :=
  ⟨c7_units_renamed.1 _ _ _ CTState.init (by decide),
    c7_units_renamed.2.2.1 (.strLit "ns") .nil,
    c7_units_renamed.2.2.2 none (.name "sig") .nil (by decide)⟩

/-- C8: `cocotb.start_soon(E)` is rewritten to the bare expression `E`
exactly when the call has a single argument `E` that is itself a call whose
callee is an attribute named `start`; the inner call is taken verbatim from
the original node; every other `cocotb.start_soon` call is left unchanged
with the state untouched. -/
theorem c8_start_soon_unwrap :
    (∀ (kw : Option String) (recv : Expr) (iargs : Args) (upd : Expr) (s : CTState),
      ctLeaveCall (.call (.attr (.name "cocotb") "start_soon")
          (.cons (.mk kw (.call (.attr recv "start") iargs)) .nil)) upd s
        = (.call (.attr recv "start") iargs, s.mark_modified)) ∧
    (∀ (oargs : Args) (upd : Expr) (s : CTState), startSoonArgMatch oargs = false →
      ctLeaveCall (.call (.attr (.name "cocotb") "start_soon") oargs) upd s = (upd, s)) :=
  ⟨ctLeaveCall_start_soon, ctLeaveCall_start_soon_decline⟩

/-- Witness for C8 at `cocotb.start_soon(clock.start())` and at the
non-matching `cocotb.start_soon(run())`. -/
theorem c8_start_soon_unwrap_witness :
    ctLeaveCall (.call (.attr (.name "cocotb") "start_soon")
        (.cons (.mk none (.call (.attr (.name "clock") "start") .nil)) .nil))
        (.call (.attr (.name "cocotb") "start_soon")
          (.cons (.mk none (.call (.attr (.name "clock") "start") .nil)) .nil))
        CTState.init
      = (.call (.attr (.name "clock") "start") .nil, CTState.init.mark_modified) ∧
    ctLeaveCall (.call (.attr (.name "cocotb") "start_soon")
        (.cons (.mk none (.call (.name "run") .nil)) .nil))
        (.call (.attr (.name "cocotb") "start_soon")
          (.cons (.mk none (.call (.name "run") .nil)) .nil))
        CTState.init
      = (.call (.attr (.name "cocotb") "start_soon")
          (.cons (.mk none (.call (.name "run") .nil)) .nil), CTState.init) :=
  ⟨c8_start_soon_unwrap.1 none (.name "clock") .nil _ CTState.init,
    c8_start_soon_unwrap.2 _ _ CTState.init (by decide)⟩

/-- C10: `leave_Attribute` fires on every attribute access named
`frequency` regardless of the receiver — it sets the file-scoped
`frequency_found` flag, marks the pass modified, and returns the node
itself unchanged; consequently the top-of-file warning comment is inserted
for any module containing such an access, Clock-related or not. -/
theorem c10_frequency_any_receiver :
    (∀ (ov uv : Expr) (s : CTState),
      ctLeaveAttr (.attr ov "frequency") (.attr uv "frequency") s
        = (.attr uv "frequency", ⟨true, true, s.cycles_found⟩)) ∧
    (∀ m : Lines, hasFreqLs m = true → 0 < countWarn freqWarning (ctRun m).1) := by
  refine ⟨fun ov uv s => rfl, ?_⟩
  intro m h
  simp only [ctRun]
  rw [countWarn_ctLeaveModule_freq, ctLines_freq]
  simp [CTState.init, h]

/-- Witness for C10 at `network.frequency` — a receiver unrelated to any
Clock object: the flag is set and the warning comment appears. -/
theorem c10_frequency_any_receiver_witness :
    ctLeaveAttr (.attr (.name "network") "frequency")
        (.attr (.name "network") "frequency") CTState.init
      = (.attr (.name "network") "frequency", ⟨true, true, false⟩) ∧
    0 < countWarn freqWarning
        (ctRun (.cons (.simple [.exprStmt (.attr (.name "network") "frequency")]) .nil)).1 :=
  ⟨c10_frequency_any_receiver.1 (.name "network") (.name "network") CTState.init,
    c10_frequency_any_receiver.2 _ (by decide)⟩

/-! ## Fixed points of the ClockTransformer (for C1) -/

theorem ctRule3_id (f : Expr) (args : Args) (upd : Expr) (s : CTState)
    (h3 : isStartCyclesCall f args = false) :
    ctRule3 (.call f args) upd s = (upd, s) := by
  unfold ctRule3
  split
  · rename_i heq
    obtain ⟨hf, hargs⟩ := (Expr.call.injEq .. ).mp heq
    subst hf
    subst hargs
    simp only [isStartCyclesCall] at h3
    have hid := removeCyclesArgs_of_no_cycles args h3
    simp [h3, hid]
  · rfl

theorem ctLeaveCall_id (f : Expr) (args : Args) (upd : Expr) (s : CTState)
    (h1 : ruleStartSoon (.call f args) = none)
    (h2 : isClockUnitsCall f args = false)
    (h3 : isStartCyclesCall f args = false) :
    ctLeaveCall (.call f args) upd s = (upd, s) := by
  unfold ctLeaveCall
  rw [h1]
  split
  · rename_i inner heq
    exact Option.noConfusion heq
  · split
    · rename_i heq
      obtain ⟨hf, hargs⟩ := (Expr.call.injEq .. ).mp heq
      subst hf
      subst hargs
      simp only [isClockUnitsCall] at h2
      have hid := renameUnitsArgs_of_no_units args h2
      simp only [h2, Bool.false_eq_true, if_false, hid, ne_eq, not_true_eq_false]
      exact ctRule3_id (.name "Clock") args upd s h3
    · exact ctRule3_id f args upd s h3

theorem ctLeaveAttr_id (v : Expr) (a : String) (upd : Expr) (s : CTState)
    (h : (a = "frequency" : Bool) = false) :
    ctLeaveAttr (.attr v a) upd s = (upd, s) := by
  simp only [decide_eq_false_iff_not] at h
  simp [ctLeaveAttr, h]

mutual

theorem ctExpr_fix : ∀ (e : Expr) (s : CTState), noPatExpr e = true → ctExpr e s = (e, s)
  | .name v, s, _ => rfl
  | .num n, s, _ => rfl
  | .strLit v, s, _ => rfl
  | .attr v a, s, h => by
    simp only [noPatExpr, Bool.and_eq_true] at h
    simp only [ctExpr, ctExpr_fix v s h.2]
    exact ctLeaveAttr_id v a (.attr v a) s (by simpa using h.1)
  | .call f args, s, h => by
    simp only [noPatExpr, Bool.and_eq_true] at h
    obtain ⟨⟨⟨⟨h1, h2⟩, h3⟩, h4⟩, h5⟩ := h
    have h1' : ruleStartSoon (.call f args) = none := by
      cases hrs : ruleStartSoon (.call f args) with
      | none => rfl
      | some inner => rw [hrs] at h1; simp at h1
    simp only [ctExpr, ctExpr_fix f s h4, ctArgs_fix args s h5]
    exact ctLeaveCall_id f args (.call f args) s h1'
      (by simpa using h2) (by simpa using h3)
  | .awaitE e, s, h => by
    simp only [noPatExpr] at h
    simp [ctExpr, ctExpr_fix e s h]
  | .yieldNone, s, _ => rfl
  | .yieldSome e, s, h => by
    simp only [noPatExpr] at h
    simp [ctExpr, ctExpr_fix e s h]

theorem ctArgs_fix : ∀ (as : Args) (s : CTState), noPatArgs as = true → ctArgs as s = (as, s)
  | .nil, s, _ => rfl
  | .cons (.mk kw v) rest, s, h => by
    simp only [noPatArgs, Bool.and_eq_true] at h
    simp [ctArgs, ctExpr_fix v s h.1, ctArgs_fix rest s h.2]

end

theorem ctStmt_fix (st : Stmt) (s : CTState) (h : noPatStmt st = true) :
    ctStmt st s = (st, s) := by
  cases st with
  | exprStmt e =>
    simp only [noPatStmt] at h
    simp [ctStmt, ctExpr_fix e s h]
  | raiseSome e =>
    simp only [noPatStmt] at h
    simp [ctStmt, ctExpr_fix e s h]
  | returnSome e =>
    simp only [noPatStmt] at h
    simp [ctStmt, ctExpr_fix e s h]
  | raiseNone => rfl
  | returnNone => rfl
  | passS => rfl

theorem ctStmts_fix : ∀ (ss : List Stmt) (s : CTState), noPatStmts ss = true →
    ctStmts ss s = (ss, s)
  | [], s, _ => rfl
  | st :: rest, s, h => by
    simp only [noPatStmts, Bool.and_eq_true] at h
    simp [ctStmts, ctStmt_fix st s h.1, ctStmts_fix rest s h.2]

theorem ctDecs_fix : ∀ (ds : List Expr) (s : CTState), noPatDecs ds = true →
    ctDecs ds s = (ds, s)
  | [], s, _ => rfl
  | d :: rest, s, h => by
    simp only [noPatDecs, Bool.and_eq_true] at h
    simp [ctDecs, ctExpr_fix d s h.1, ctDecs_fix rest s h.2]

mutual

theorem ctLine_fix : ∀ (l : Line) (s : CTState), noPatLine l = true → ctLine l s = (l, s)
  | .simple ss, s, h => by
    simp only [noPatLine] at h
    simp [ctLine, ctStmts_fix ss s h]
  | .emptyLine c, s, _ => rfl
  | .funcDef decs ia nm body, s, h => by
    simp only [noPatLine, Bool.and_eq_true] at h
    simp [ctLine, ctDecs_fix decs s h.1, ctLines_fix body s h.2]

theorem ctLines_fix : ∀ (ls : Lines) (s : CTState), noPatLines ls = true →
    ctLines ls s = (ls, s)
  | .nil, s, _ => rfl
  | .cons l rest, s, h => by
    simp only [noPatLines, Bool.and_eq_true] at h
    simp [ctLines, ctLine_fix l s h.1, ctLines_fix rest s h.2]

end

/-- A pattern-free module is a fixed point of a whole `ClockTransformer`
run, with a final state equal to the fresh one (in particular `modified`
stays false and no warning comment is inserted). -/
theorem ctRun_fix (m : Lines) (h : noPatLines m = true) : ctRun m = (m, CTState.init) := by
  simp only [ctRun]
  rw [ctLines_fix m CTState.init h]
  simp [ctLeaveModule, CTState.init]

/-! ## Claim theorems: C1 -/

/-- C1 counterexample: on the module `sig.frequency`, a second
`ClockTransformer` run on the first run's output (which still contains the
`frequency` access plus the inserted warning comment) reports a change —
the pass marks itself modified again and prepends a duplicate warning
comment, so the output differs from its input. -/
theorem c1_counterexample :
    (ctRun (ctRun (.cons
        (.simple [.exprStmt (.attr (.name "sig") "frequency")]) .nil)).1).2.modified = true ∧
    (ctRun (ctRun (.cons
        (.simple [.exprStmt (.attr (.name "sig") "frequency")]) .nil)).1).1 ≠
      (ctRun (.cons (.simple [.exprStmt (.attr (.name "sig") "frequency")]) .nil)).1 := by
  constructor
  · rfl
  · decide

/-- C1 (amended): a second `ClockTransformer` run on its own output reports
no change — returning the output unchanged with a pristine state (so
`modified` is false and no further warning is inserted) — provided the
first run's output no longer matches any of the transformer's own patterns.
The proviso is necessary: the attribute-removal rule leaves `frequency`
accesses in its output, where they re-match (see the counterexample). -/
theorem c1_second_run_fixed (m : Lines) (h : noPatLines (ctRun m).1 = true) :
    ctRun (ctRun m).1 = ((ctRun m).1, CTState.init) :=
  ctRun_fix (ctRun m).1 h

/-- Witness for C1 (amended) at `Clock(sig, 10, units="ns")`: the first
run's output `Clock(sig, 10, unit="ns")` is pattern-free, so the second run
changes nothing and reports no modification. -/
theorem c1_second_run_fixed_witness :
    noPatLines (ctRun (.cons (.simple [.exprStmt (.call (.name "Clock")
        (.cons (.mk none (.name "sig")) (.cons (.mk none (.num 10))
          (.cons (.mk (some "units") (.strLit "ns")) .nil))))]) .nil)).1 = true ∧
    ctRun (ctRun (.cons (.simple [.exprStmt (.call (.name "Clock")
        (.cons (.mk none (.name "sig")) (.cons (.mk none (.num 10))
          (.cons (.mk (some "units") (.strLit "ns")) .nil))))]) .nil)).1
      = ((ctRun (.cons (.simple [.exprStmt (.call (.name "Clock")
          (.cons (.mk none (.name "sig")) (.cons (.mk none (.num 10))
            (.cons (.mk (some "units") (.strLit "ns")) .nil))))]) .nil)).1, CTState.init) :=
  ⟨by decide, c1_second_run_fixed _ (by decide)⟩

/-! ## Offense-free modules are fixed points of the CocotbTransformer (for C2) -/

theorem bool_false_of_if (b : Bool) (msg : String)
    (h : (if b then [msg] else ([] : List String)) = []) : b = false := by
  cases b
  · rfl
  · simp at h

mutual

theorem cmtExpr_id : ∀ e : Expr, offExpr e = [] → cmtExpr e = e
  | .name v, _ => rfl
  | .num n, _ => rfl
  | .strLit v, _ => rfl
  | .attr v a, h => by
    simp only [offExpr] at h
    simp [cmtExpr, cmtExpr_id v h]
  | .call f args, h => by
    simp only [offExpr, List.append_eq_nil] at h
    obtain ⟨⟨h1, h2⟩, h3⟩ := h
    have hfork : isForkName f = false := bool_false_of_if _ _ h1
    simp only [cmtExpr, cmtExpr_id f h2, cmtArgs_id args h3]
    exact cmtLeaveCall_decline f args hfork
  | .awaitE e, h => by
    simp only [offExpr] at h
    simp [cmtExpr, cmtExpr_id e h]
  | .yieldNone, _ => rfl
  | .yieldSome e, h => by
    simp only [offExpr, List.append_eq_nil] at h
    obtain ⟨h1, h2⟩ := h
    have hcall : isCallB e = false := bool_false_of_if _ _ h1
    simp only [cmtExpr, cmtExpr_id e h2]
    exact cmtLeaveYield_decline e hcall

theorem cmtArgs_id : ∀ as : Args, offArgs as = [] → cmtArgs as = as
  | .nil, _ => rfl
  | .cons (.mk kw v) rest, h => by
    simp only [offArgs, List.append_eq_nil] at h
    simp [cmtArgs, cmtExpr_id v h.1, cmtArgs_id rest h.2]

end

theorem cmtStmt_id (st : Stmt) (h : offStmt st = []) : cmtStmt st = st := by
  cases st with
  | exprStmt e =>
    simp only [offStmt] at h
    simp [cmtStmt, cmtExpr_id e h]
  | raiseNone => rfl
  | raiseSome e =>
    simp only [offStmt, List.append_eq_nil] at h
    obtain ⟨h1, h2⟩ := h
    have hm : matchesReturnValueCall e = false := bool_false_of_if _ _ h1
    simp only [cmtStmt, cmtExpr_id e h2]
    exact cmtLeaveRaise_decline (.raiseSome e) (by simp [raiseRewriteApplies, hm])
  | returnNone => rfl
  | returnSome e =>
    simp only [offStmt] at h
    simp [cmtStmt, cmtExpr_id e h]
  | passS => rfl

theorem cmtStmts_map_id : ∀ ss : List Stmt, offStmts ss = [] → ss.map cmtStmt = ss
  | [], _ => rfl
  | st :: rest, h => by
    simp only [offStmts, List.append_eq_nil] at h
    simp [cmtStmt_id st h.1, cmtStmts_map_id rest h.2]

theorem cmtDecs_map_id : ∀ ds : List Expr, offDecs ds = [] → ds.map cmtExpr = ds
  | [], _ => rfl
  | d :: rest, h => by
    simp only [offDecs, List.append_eq_nil] at h
    obtain ⟨⟨h1, h2⟩, h3⟩ := h
    simp [cmtExpr_id d h2, cmtDecs_map_id rest h3]

theorem decs_any_coroutine_false :
    ∀ ds : List Expr, offDecs ds = [] → ds.any isCoroutineDecorator = false
  | [], _ => rfl
  | d :: rest, h => by
    simp only [offDecs, List.append_eq_nil] at h
    obtain ⟨⟨h1, h2⟩, h3⟩ := h
    have hd := bool_false_of_if _ _ h1
    simp [List.any_cons, hd, decs_any_coroutine_false rest h3]

mutual

theorem cmtLine_id : ∀ l : Line, offLine l = [] → cmtLine l = l
  | .simple ss, h => by
    simp only [offLine] at h
    simp [cmtLine, cmtStmts_map_id ss h]
  | .emptyLine c, _ => rfl
  | .funcDef decs ia nm body, h => by
    simp only [offLine, List.append_eq_nil] at h
    obtain ⟨h1, h2⟩ := h
    simp only [cmtLine, cmtDecs_map_id decs h1, cmtLines_id body h2]
    exact cmtLeaveFunctionDef_decline decs ia nm body (decs_any_coroutine_false decs h1)

theorem cmtLines_id : ∀ ls : Lines, offLines ls = [] → cmtLines ls = ls
  | .nil, _ => rfl
  | .cons l rest, h => by
    simp only [offLines, List.append_eq_nil] at h
    simp [cmtLines, cmtLine_id l h.1, cmtLines_id rest h.2]

end

/-! ## Claim theorems: C2 and C9 -/

/-- C2: for every module that parses, the change verdict of `migrate_file`
equals textual inequality of the fully rewritten text against the original
text, whatever the mode — in particular the early return taken in
check-only mode when the `ChangeCounter` pre-scan finds no offenses agrees
with the full rewrite, because an offense-free module is a fixed point of
the `CocotbTransformer`. -/
theorem c2_changed_verdict (m : Lines) (apply : Bool) :
    (migrate_file (.ok m) apply).changed
      = (renderLines (cmtLines m) != renderLines m) := by
  have hred : migrate_file (.ok m) apply
      = (if (!(!(offLines m).isEmpty) && !apply) = true then
          { changed := false, written := none, parseErrorReported := none }
        else
          { changed := renderLines (cmtLines m) != renderLines m,
            written := if (apply && (renderLines (cmtLines m) != renderLines m)) = true
              then some (renderLines (cmtLines m)) else none,
            parseErrorReported := none }) := rfl
  rw [hred]
  by_cases hc : (!(!(offLines m).isEmpty) && !apply) = true
  · rw [if_pos hc]
    have he : (offLines m).isEmpty = true := by
      have := (Bool.and_eq_true .. ).mp hc
      simpa using this.1
    have hid : cmtLines m = m := cmtLines_id m (by simpa using he)
    simp [hid]
  · rw [if_neg hc]

theorem mainCounts_append : ∀ (xs ys : List ParseResult) (apply : Bool),
    mainCounts (xs ++ ys) apply
      = ((mainCounts xs apply).1 + (mainCounts ys apply).1,
         (mainCounts xs apply).2 + (mainCounts ys apply).2)
  | [], ys, apply => by simp [mainCounts]
  | pr :: rest, ys, apply => by
    have ih := mainCounts_append rest ys apply
    simp only [List.cons_append, List.append_eq, mainCounts, ih]
    by_cases hch : (migrate_file pr apply).changed = true
    · simp [hch, Prod.ext_iff]
      omega
    · have hch' : (migrate_file pr apply).changed = false := eq_false_of_ne_true hch
      simp [hch', Prod.ext_iff]
      omega

/-- C9: a parse failure is caught inside `migrate_file` and reported for
that unit alone — the unit gets a no-change verdict, nothing is written —
and the batch loop of `main` still processes every other unit: the counts
of a batch containing the failing unit are exactly the counts of the
surrounding units plus one `unchanged`. -/
theorem c9_parse_error_isolated (pre post : List ParseResult) (msg : String)
    (apply : Bool) :
    migrate_file (.err msg) apply
      = { changed := false, written := none, parseErrorReported := some msg } ∧
    mainCounts (pre ++ .err msg :: post) apply
      = ((mainCounts pre apply).1 + (mainCounts post apply).1,
         (mainCounts pre apply).2 + ((mainCounts post apply).2 + 1)) := by
  refine ⟨rfl, ?_⟩
  rw [mainCounts_append]
  simp [mainCounts, migrate_file]

end Migrator
